import Mathlib

/-!
Verification of the UAVLogViewer application server.

This file gives a shallow embedding, in Lean 4, of the core of the
UAVLogViewer app server:

* the schema normalizer and ingestion pipeline (`app/ingestion.py`:
  `normalize_message_type`, `ingest_and_normalize`),
* the tool handlers (`app/tools.py`: `list_available_tables`,
  `get_table_schema`, `query_sql`, `control_playback`,
  `seek_to_timestamp`, `seek_to_mode`),
* the agent loop (`app/agent.py`: `build_system_prompt`,
  `execute_tool`, `run_agent`),

and proves the testable properties of its specification against that
embedding.

Modelling conventions:

* Python/JSON values are modelled by the inductive type `UAV.PyVal`.
  Scalar numbers are modelled as integers (no property proved here
  depends on floating-point arithmetic).
* External collaborators (the DuckDB store, the OpenAI model service)
  are modelled as oracles collected in the structure `UAV.Env`:
  the model capability is a function from a transcript to a response,
  the store is a table-name list plus query oracles.
* Python exceptions are modelled by `Option`: a function returns
  `none` exactly when the Python code would raise past the modelled
  boundary.
* Python's `sorted` is a stable ascending sort; it is modelled by
  Mathlib's `List.insertionSort`, which is also stable and ascending,
  hence produces the same output on every input.
* Python's `str.upper`, `str.replace` (single characters) and `int()`
  are modelled character-wise over ASCII inputs.
-/

namespace UAV

/-- Python/JSON values as handled by the server: `None`, booleans,
numbers (modelled as integers), strings, lists and dicts (a dict is
its ordered list of key/value items, keys distinct). -/
inductive PyVal where
  | pnull
  | pbool (b : Bool)
  | pint (n : Int)
  | pstr (s : String)
  | plist (xs : List PyVal)
  | pdict (kvs : List (String × PyVal))

/-- Dict lookup, Python `d[k]` / `d.get(k)` on the item list. -/
def lookupKey (kvs : List (String × PyVal)) (k : String) : Option PyVal :=
  (kvs.find? (fun p => p.1 == k)).map Prod.snd

/-- Python `v.get(k)` guarded by `isinstance(v, dict)`: `none` when
`v` is not a dict or the key is absent. -/
def getKey (v : PyVal) (k : String) : Option PyVal :=
  match v with
  | .pdict kvs => lookupKey kvs k
  | _ => none

/-- Python truthiness (`if not message_data`, `if file_id`). -/
def pyTruthy : PyVal → Bool
  | .pnull => false
  | .pbool b => b
  | .pint n => !(n == 0)
  | .pstr s => !(s == "")
  | .plist xs => !xs.isEmpty
  | .pdict kvs => !kvs.isEmpty

/-- JSON string quoting as in `json.dumps` (escaping restricted to
quote and backslash; no property proved here inspects escapes of
control characters). -/
def jsonQuote (s : String) : String :=
  "\"" ++ String.mk (s.data.foldr
    (fun c acc =>
      if c = '"' then '\\' :: '"' :: acc
      else if c = '\\' then '\\' :: '\\' :: acc
      else c :: acc) []) ++ "\""

/-- Python `sep.join(items)`. -/
def joinWith (sep : String) : List String → String
  | [] => ""
  | [x] => x
  | x :: xs => x ++ sep ++ joinWith sep xs

/-- Serialization of a result value as by `json.dumps` with default
separators, used when folding tool results into the transcript. -/
def pyToJson : PyVal → String
  | .pnull => "null"
  | .pbool b => cond b "true" "false"
  | .pint n => toString n
  | .pstr s => jsonQuote s
  | .plist xs =>
      "[" ++ joinWith ", " (xs.attach.map (fun v => pyToJson v.1)) ++ "]"
  | .pdict kvs =>
      "\x7b" ++ joinWith ", "
        (kvs.attach.map (fun kv => jsonQuote kv.1.1 ++ ": " ++ pyToJson kv.1.2)) ++ "\x7d"
decreasing_by
  · have := List.sizeOf_lt_of_mem v.2
    simp only [PyVal.plist.sizeOf_spec]
    omega
  · obtain ⟨⟨a, b⟩, hm⟩ := kv
    have := List.sizeOf_lt_of_mem hm
    simp only [PyVal.pdict.sizeOf_spec]
    simp only [Prod.mk.sizeOf_spec] at this
    omega

/-- Python `int(s)` on a decimal digit string (optionally signed);
`none` models the `ValueError` raised on any other string. -/
def digitsToNat? (l : List Char) : Option Nat :=
  if l = [] then none
  else l.foldl
    (fun acc c => acc.bind
      (fun a => if c.isDigit then some (a * 10 + (c.toNat - 48)) else none))
    (some 0)

/-- Python `int(s)` for the index keys of a sparse field mapping. -/
def pyInt? (s : String) : Option Int :=
  match s.data with
  | '-' :: rest => (digitsToNat? rest).map (fun n => -(n : Int))
  | '+' :: rest => (digitsToNat? rest).map (fun n => (n : Int))
  | l => (digitsToNat? l).map (fun n => (n : Int))

/-- Python `s.upper()` (ASCII), used by `seek_to_mode`. -/
def pyUpper (s : String) : String := String.mk (s.data.map Char.toUpper)

/-- Character sanitization of `ingest_and_normalize`: brackets and
hyphens become underscores (`.replace("[", "_").replace("]", "_")
.replace("-", "_")`, single-character replaces, hence char-wise). -/
def sanitizeChar (c : Char) : Char :=
  if c = '[' ∨ c = ']' ∨ c = '-' then '_' else c

/-- Hyphen replacement of `list_available_tables` / `seek_to_mode`:
`file_id.replace("-", "_")`. -/
def hyphenChar (c : Char) : Char :=
  if c = '-' then '_' else c

/-- Python `file_id.replace("-", "_")` as a string function. -/
def cleanIdStr (s : String) : String := String.mk (s.data.map hyphenChar)

/-- Table name construction in `ingest_and_normalize` (line 87):
`f"log_{file_id}_{msg_type}"` with brackets and hyphens replaced by
underscores over the whole formatted string. -/
def cleanTableName (fileId msgType : String) : String :=
  String.mk (("log_" ++ fileId ++ "_" ++ msgType).data.map sanitizeChar)

/-! ## Schema normalizer (`normalize_message_type`) -/

/-- A materialized table: the ordered columns (name, cell list) of the
DataFrame built by the normalizer. -/
structure Table where
  cols : List (String × List PyVal)

/-- Sort key/value items of a sparse field mapping by the numeric value
of the keys (`sorted(field_values.items(), key=lambda x: int(x[0]))`)
and keep the values. `none` models the `ValueError` from `int` on a
non-numeric key. Python's `sorted` is stable, as is
`List.insertionSort`. -/
def sortedDictValues (kvs : List (String × PyVal)) : Option (List PyVal) :=
  (kvs.mapM (fun kv => (pyInt? kv.1).map (fun n => (n, kv.2)))).map
    (fun keyed =>
      (List.insertionSort (fun a b => a.1 ≤ b.1) keyed).map Prod.snd)

/-- Per-field handling of `normalize_message_type` (lines 25-34):
a dict is sorted numerically by key, a list is taken as-is, any other
shape is skipped (`some none`); `none` models a raised exception. -/
def fieldValues : PyVal → Option (Option (List PyVal))
  | .pdict kvs =>
      match sortedDictValues kvs with
      | some vs => some (some vs)
      | none => none
  | .plist xs => some (some xs)
  | _ => some none

/-- The loop of `normalize_message_type` building `data`: retained
fields in order with their value lists; skipped fields are dropped. -/
def collectFields : List (String × PyVal) → Option (List (String × List PyVal))
  | [] => some []
  | (fn, fv) :: rest =>
      match fieldValues fv with
      | none => none
      | some none => collectFields rest
      | some (some xs) => (collectFields rest).map (fun tail => (fn, xs) :: tail)

/-- The running `max_length` over the retained fields. -/
def maxLength (data : List (String × List PyVal)) : Nat :=
  data.foldl (fun m p => max m p.2.length) 0

/-- Right-padding with the null sentinel up to length `m`
(`data[field_name].extend([None] * (max_length - current_length))`). -/
def padTo (m : Nat) (xs : List PyVal) : List PyVal :=
  xs ++ List.replicate (m - xs.length) PyVal.pnull

/-- Model of `normalize_message_type(message_data)`: empty/falsy input gives an
empty DataFrame; a dict input is collected, measured and padded; a
truthy non-dict raises (`.items()` fails). -/
def normalizeMessageType (v : PyVal) : Option Table :=
  if pyTruthy v = false then some ⟨[]⟩
  else
    match v with
    | .pdict kvs =>
        (collectFields kvs).map
          (fun data => ⟨data.map (fun p => (p.1, padTo (maxLength data) p.2))⟩)
    | _ => none

/-- Pandas `df.empty`: no columns or no rows. -/
def tableIsEmpty (t : Table) : Bool :=
  t.cols.isEmpty || t.cols.all (fun c => c.2.isEmpty)

/-! ## Ingestion pipeline (`ingest_and_normalize`) -/

/-- Whether a cell is a Python boolean. -/
def isBoolVal : PyVal → Bool
  | .pbool _ => true
  | _ => false

/-- Whether a cell is the null sentinel. -/
def isNullVal : PyVal → Bool
  | .pnull => true
  | _ => false

/-- First non-null value of a column
(`df[col].dropna().iloc[0] if len(df[col].dropna()) > 0 else None`). -/
def firstNonNull (xs : List PyVal) : Option PyVal :=
  xs.find? (fun v => !isNullVal v)

/-- Pandas dtype test `== 'object'` on our value universe: a column is
object-typed when it holds a string or list, or mixes booleans with
other values; all-boolean columns have dtype bool, numeric columns
(ints and nulls) have a numeric dtype. -/
def colDtypeObject (xs : List PyVal) : Bool :=
  xs.any (fun v =>
    match v with
    | .pstr _ => true
    | .plist _ => true
    | _ => false) || (xs.any isBoolVal && !xs.all isBoolVal)

/-- Python `str(v)` used by `astype(str)` on list-valued columns.
String rendering approximates Python's `str`; no property proved here
inspects the rendered text. -/
def pyStrOf (v : PyVal) : String := pyToJson v

/-- Type coercion pass of `ingest_and_normalize` (lines 71-84): a bool
dtype column is cast to integers; an object dtype column whose first
non-null value is a list is cast to strings, and one whose first
non-null value is a boolean has its booleans replaced by 0/1. -/
def coerceCol (xs : List PyVal) : List PyVal :=
  if !xs.isEmpty && xs.all isBoolVal then
    xs.map (fun v =>
      match v with
      | .pbool b => .pint (cond b 1 0)
      | v => v)
  else if colDtypeObject xs then
    match firstNonNull xs with
    | some (.plist _) => xs.map (fun v => .pstr (pyStrOf v))
    | some (.pbool _) =>
        xs.map (fun v =>
          match v with
          | .pbool b => .pint (cond b 1 0)
          | v => v)
    | _ => xs
  else xs

/-- The coercion pass applied column-wise to a normalized table. -/
def coerceTable (t : Table) : Table :=
  ⟨t.cols.map (fun c => (c.1, coerceCol c.2))⟩

/-- The message-type loop of `ingest_and_normalize` (lines 60-92).
`existing` is the set of table names already present in the store;
`CREATE TABLE` on an existing name raises, modelled by `none`; the
returned list is the sequence of tables created, in order. -/
def processMessages (fileId : String) (existing : List String) :
    List (String × PyVal) → Option (List (String × Table))
  | [] => some []
  | (msgType, msgData) :: rest =>
      if msgType = "FILE" then processMessages fileId existing rest
      else
        match normalizeMessageType msgData with
        | none => none
        | some df =>
            if tableIsEmpty df then processMessages fileId existing rest
            else
              if cleanTableName fileId msgType ∈ existing then none
              else
                match processMessages fileId (cleanTableName fileId msgType :: existing) rest with
                | none => none
                | some tail => some ((cleanTableName fileId msgType, coerceTable df) :: tail)

/-- The contribution of one message block to the store: `none` for the
reserved metadata type, for a block whose normalization is empty, and
for a block whose normalization raises; otherwise the created table
under its deterministic name. Mirrors one pass of the loop body of
`ingest_and_normalize`. -/
def createdEntry (fileId : String) (p : String × PyVal) : Option (String × Table) :=
  if p.1 = "FILE" then none
  else
    match normalizeMessageType p.2 with
    | none => none
    | some df =>
        if tableIsEmpty df then none
        else some (cleanTableName fileId p.1, coerceTable df)

/-- Model of `ingest_and_normalize(raw_data, file_id)`:
`raw_data.get("messages", {})` then one table per message type. -/
def ingestAndNormalize (rawData : PyVal) (fileId : String)
    (existing : List String) : Option (List (String × Table)) :=
  match rawData with
  | .pdict rkvs =>
      match (lookupKey rkvs "messages").getD (.pdict []) with
      | .pdict mkvs => processMessages fileId existing mkvs
      | _ => none
  | _ => none

/-! ## SQL LIKE matching (the store's `LIKE` operator, used by
`list_available_tables` via `table_name LIKE 'log_{clean_file_id}_%'`).
The store is external; its `LIKE` semantics is modelled here:
`_` matches any single character, `%` any sequence. -/

/-- Fuel-indexed LIKE matcher; each step consumes one unit of fuel and
shortens pattern or text, so `likeMatch` below always supplies enough
fuel. -/
def likeFuel : Nat → List Char → List Char → Bool
  | 0, _, _ => false
  | f + 1, ps, t =>
      match ps with
      | [] => t.isEmpty
      | p :: ps' =>
          if p = '%' then
            match t with
            | [] => likeFuel f ps' []
            | _ :: t' => likeFuel f ps' t || likeFuel f (p :: ps') t'
          else
            match t with
            | [] => false
            | c :: t' => (p == '_' || p == c) && likeFuel f ps' t'

/-- SQL `LIKE` (no escape character, as used by the server). -/
def likeMatch (ps t : List Char) : Bool :=
  likeFuel (ps.length + t.length + 1) ps t

/-- Wildcard-free segment matching: each pattern position is `_` or
equal to the text character. Used to reason about the fixed part of a
LIKE pattern ending in `%`. -/
def matchOne : List Char → List Char → Bool
  | [], t => t.isEmpty
  | p :: ps, t =>
      match t with
      | [] => false
      | c :: t' => (p == '_' || p == c) && matchOne ps t'

/-! ## Tool handlers (`app/tools.py`) -/

/-- Model of `list_available_tables(file_id)`: the store's tables whose name
matches `log_{file_id.replace("-","_")}_%`, in store order. -/
def listAvailableTables (fileId : String) (tables : List String) : List String :=
  tables.filter
    (fun t => likeMatch ("log_" ++ cleanIdStr fileId ++ "_%").data t.data)

/-- A model-issued tool call: id, tool name and parsed JSON argument
payload. -/
structure ToolCall where
  id : String
  name : String
  args : PyVal

/-- A model response: final text content and the ordered tool calls it
requests (empty when the model is ready to answer). -/
structure ModelResponse where
  content : String
  toolCalls : List ToolCall

/-- Transcript messages: system/user text, an assistant message
carrying a model response, or a tool result tagged with its call id. -/
inductive Message where
  | system (content : String)
  | user (content : String)
  | assistant (resp : ModelResponse)
  | tool (toolCallId : String) (name : String) (content : String)

/-- Events yielded to the caller: an answer token, a command result
(a dict with `"type": "command"`), or stream completion. -/
inductive Event where
  | token (content : String)
  | commandEv (result : PyVal)
  | done

/-- The external collaborators: the model service (non-streaming and
streaming capability), the loaded base system prompt, and the columnar
store (table list, `DESCRIBE`, arbitrary SQL, and the mode-transition
query issued by `seek_to_mode`, mapping a heartbeat table name and
mode number to the earliest matching `time_boot_ms`). -/
structure Env where
  chat : List Message → ModelResponse
  chatStream : List Message → List String
  basePrompt : String
  tables : List String
  describeTable : String → Except String (List (String × String))
  runSql : String → Except String (List (List PyVal) × List String)
  modeQuery : String → Int → Except String (Option Int)

/-- Model of `get_table_schema(table_name)`: `DESCRIBE` mapped to a
column-to-type dict; a store error is re-raised (`none`). -/
def getTableSchema (tableName : String) (env : Env) : Option PyVal :=
  match env.describeTable tableName with
  | .ok rows => some (.pdict (rows.map (fun r => (r.1, .pstr r.2))))
  | .error _ => none

/-- Model of `query_sql(sql)`: execute against the store; both outcomes are
returned as structured envelopes and no exception escapes. -/
def querySql (sql : String) (env : Env) : PyVal :=
  match env.runSql sql with
  | .ok (data, cols) =>
      .pdict [("success", .pbool true),
              ("data", .plist (data.map .plist)),
              ("columns", .plist (cols.map .pstr)),
              ("row_count", .pint (data.length : Int))]
  | .error e =>
      .pdict [("success", .pbool false),
              ("data", .pnull),
              ("columns", .pnull),
              ("row_count", .pint 0),
              ("error", .pstr e),
              ("sql", .pstr sql)]

/-- The playback actions accepted by `control_playback`. -/
def validActions : List String :=
  ["play", "pause", "speed_0.5x", "speed_1x", "speed_1.5x",
   "speed_2x", "speed_5x", "speed_10x"]

/-- Model of `control_playback(action)`: validation plus command construction. -/
def controlPlayback (action : String) : PyVal :=
  if ¬ action ∈ validActions then
    .pdict [("error", .pstr ("Invalid action '" ++ action ++ "'. Valid actions: "
      ++ joinWith ", " validActions))]
  else
    .pdict [("type", .pstr "command"),
            ("action", .pstr "control_playback"),
            ("params", .pdict [("action", .pstr action)])]

/-- Model of `seek_to_timestamp(timestamp_ms)`: negative timestamps give a
structured error, otherwise a command envelope. -/
def seekToTimestamp (timestampMs : Int) : PyVal :=
  if timestampMs < 0 then
    .pdict [("error", .pstr "Timestamp cannot be negative")]
  else
    .pdict [("type", .pstr "command"),
            ("action", .pstr "seek_to_timestamp"),
            ("params", .pdict [("timestamp", .pint timestampMs)])]

/-- The fixed ArduPilot mode enumeration of `seek_to_mode`. -/
def modeMap : List (String × Int) :=
  [("STABILIZE", 0), ("ACRO", 1), ("ALT_HOLD", 2), ("AUTO", 3), ("GUIDED", 4),
   ("LOITER", 5), ("RTL", 6), ("CIRCLE", 7), ("LAND", 9),
   ("QSTABILIZE", 17), ("QHOVER", 18), ("QLOITER", 19), ("QLAND", 20), ("QRTL", 21)]

/-- Python `mode_map.get(name)`. -/
def lookupMode (name : String) : Option Int :=
  (modeMap.find? (fun p => p.1 == name)).map Prod.snd

/-- Model of `seek_to_mode(file_id, mode_name)`: upper-case the name, translate
it through the enumeration, query the heartbeat table for the earliest
occurrence, and delegate to `seek_to_timestamp`; unknown or absent
modes give structured errors. -/
def seekToMode (fileId modeName : String) (env : Env) : PyVal :=
  let upperName := pyUpper modeName
  match lookupMode upperName with
  | none =>
      .pdict [("error", .pstr ("Unknown mode '" ++ modeName ++ "'. Known modes: "
        ++ joinWith ", " (modeMap.map Prod.fst)))]
  | some num =>
      match env.modeQuery ("log_" ++ cleanIdStr fileId ++ "_HEARTBEAT") num with
      | .error e => .pdict [("error", .pstr ("Could not search for mode: " ++ e))]
      | .ok none => .pdict [("error", .pstr ("Mode '" ++ modeName ++ "' not found in this flight"))]
      | .ok (some ts) => seekToTimestamp ts

/-! ## Agent loop (`app/agent.py`) -/

/-- Separator row of the session-state banner (42 equals signs). -/
def sepRow : String := String.mk (List.replicate 42 '=')

/-- Session-state suffix of `build_system_prompt` when a file id is
present. -/
def filePrompt (fileId : String) : String :=
  "\n\n" ++ sepRow ++ "\nCURRENT SESSION STATE\n" ++ sepRow ++ "\nFlight log file ID: "
  ++ fileId
  ++ "\n\nThis file has been uploaded and normalized into the database.\nThe data is READY to query - do NOT ask the user to upload a file.\n\nWhen you call list_available_tables(), use file_id=\""
  ++ fileId
  ++ "\".\nTables will be prefixed with: log_"
  ++ cleanIdStr fileId
  ++ "_\n\nThe number of tables varies - could be many (ATT, GPS, BATT, etc.) or just one combined table.\nWork with WHATEVER tables you find - don't complain about missing tables.\n\nStart by calling list_available_tables() to see what data is available, then proceed with your analysis.\n"

/-- Session-state suffix of `build_system_prompt` when no file is
uploaded. -/
def noFilePrompt : String :=
  "\n\n" ++ sepRow ++ "\nCURRENT SESSION STATE\n" ++ sepRow ++ "\nNO FLIGHT LOG FILE UPLOADED YET\n\nThe user has not uploaded any flight log data yet.\n\nYOU CAN STILL BE HELPFUL:\n- Answer general questions about ArduPilot, flight modes, telemetry, best practices\n- Explain concepts like GPS, IMU, EKF, flight modes (LOITER, RTL, AUTO, etc.)\n- Discuss common issues, troubleshooting approaches, log analysis techniques\n- Be friendly and educational!\n\nYOU CANNOT:\n- Use any tools (list_available_tables, get_table_schema, query_sql) - there's no data to query\n- Analyze specific flight data or provide actual numbers from logs\n- Make assumptions about their specific flight\n\nIf they ask you to analyze flight data, politely tell them:\n\"I'd love to analyze your flight data! To do that, please upload a flight log file (.bin or .tlog) using the file selector in the sidebar. Once uploaded, I can dive into the specifics!\"\n\nBe warm, helpful, and show your expertise even without data to analyze.\n"

/-- Model of `build_system_prompt(file_id)`: loaded prompt plus session state
(an empty file id is falsy in Python). -/
def buildSystemPrompt (env : Env) (fileId : String) : String :=
  env.basePrompt ++ (if fileId = "" then noFilePrompt else filePrompt fileId)

/-- String argument extraction `function_args[key]` (tool arguments
conform to the tool schema; a missing or ill-typed argument makes the
handler raise, modelled by `none` at the call site). -/
def argStr (args : PyVal) (k : String) : Option String :=
  match getKey args k with
  | some (.pstr s) => some s
  | _ => none

/-- Integer argument extraction `function_args[key]`. -/
def argInt (args : PyVal) (k : String) : Option Int :=
  match getKey args k with
  | some (.pint n) => some n
  | _ => none

/-- Model of `execute_tool(tool_call, file_id)`: dispatch on the tool name.
For `list_available_tables` and `seek_to_mode` the file id comes from
the session context argument, never from the model-supplied payload.
An unknown name yields a structured error result. -/
def executeTool (tc : ToolCall) (fileId : String) (env : Env) : Option PyVal :=
  if tc.name = "list_available_tables" then
    some (.plist ((listAvailableTables fileId env.tables).map .pstr))
  else if tc.name = "get_table_schema" then
    (argStr tc.args "table_name").bind (fun tn => getTableSchema tn env)
  else if tc.name = "query_sql" then
    (argStr tc.args "sql").map (fun s => querySql s env)
  else if tc.name = "control_playback" then
    (argStr tc.args "action").map controlPlayback
  else if tc.name = "seek_to_timestamp" then
    (argInt tc.args "timestamp_ms").map seekToTimestamp
  else if tc.name = "seek_to_mode" then
    (argStr tc.args "mode_name").map (fun m => seekToMode fileId m env)
  else
    some (.pdict [("error", .pstr ("Unknown function: " ++ tc.name))])

/-- Python `isinstance(result, dict) and result.get("type") == "command"`. -/
def isCommandResult (r : PyVal) : Bool :=
  match getKey r "type" with
  | some (.pstr s) => s == "command"
  | _ => false

/-- The per-iteration tool execution loop of `run_agent`
(lines 183-197): execute each call in order, yield command results as
events immediately, and fold each result into the transcript as a
`tool` message tagged with the call's id. -/
def foldToolCalls (env : Env) (fileId : String) :
    List ToolCall → Option (List Event × List Message)
  | [] => some ([], [])
  | tc :: rest =>
      match executeTool tc fileId env with
      | none => none
      | some r =>
          match foldToolCalls env fileId rest with
          | none => none
          | some (evs, msgs) =>
              some ((if isCommandResult r then [Event.commandEv r] else []) ++ evs,
                    Message.tool tc.id tc.name (pyToJson r) :: msgs)

/-- The explanatory message emitted when the iteration bound is
reached. -/
def maxIterMessage (maxIterations : Nat) : String :=
  "I've reached the maximum number of analysis steps (" ++ toString maxIterations
  ++ "). Please try asking a more specific question or breaking it down into smaller parts."

/-- Result of one `run_agent` invocation: the yielded events in
emission order, the final transcript, and the number of model-service
calls made (instrumentation of `chat.completions.create`). -/
structure AgentRun where
  events : List Event
  finalMessages : List Message
  modelCalls : Nat

/-- The `for iteration in range(max_iterations)` loop of `run_agent`,
with `fuel` remaining iterations: call the model; with no tool calls,
re-call streaming and emit the non-empty chunks as token events then
`done`; with tool calls, fold them in and continue; exhausted fuel
emits the explanatory token and `done`. -/
def agentIter (env : Env) (fileId : String) (maxIterations : Nat) :
    List Message → Nat → Option AgentRun
  | messages, 0 =>
      some ⟨[Event.token (maxIterMessage maxIterations), Event.done], messages, 0⟩
  | messages, fuel + 1 =>
      let resp := env.chat messages
      if resp.toolCalls.isEmpty then
        some ⟨((env.chatStream messages).filter (fun c => !(c == ""))).map Event.token
                ++ [Event.done],
              messages, 2⟩
      else
        match foldToolCalls env fileId resp.toolCalls with
        | none => none
        | some (evs, toolMsgs) =>
            match agentIter env fileId maxIterations
                (messages ++ Message.assistant resp :: toolMsgs) fuel with
            | none => none
            | some r => some ⟨evs ++ r.events, r.finalMessages, r.modelCalls + 1⟩

/-- The initial transcript built by `run_agent`: system prompt, prior
history (oldest first), then the new question. -/
def initialTranscript (env : Env) (question fileId : String)
    (history : List Message) : List Message :=
  Message.system (buildSystemPrompt env fileId) :: (history ++ [Message.user question])

/-- Model of `run_agent(question, file_id, history, max_iterations)`. -/
def runAgent (env : Env) (question fileId : String) (history : List Message)
    (maxIterations : Nat) : Option AgentRun :=
  agentIter env fileId maxIterations
    (initialTranscript env question fileId history) maxIterations

/-- Concatenation of streamed chunks: the full answer text produced by
the streaming model call. -/
def concatChunks (l : List String) : String :=
  l.foldl (fun a b => a ++ b) ""

/-- Lowercase hexadecimal digits, the alphabet of `uuid4` ids aside
from hyphens. -/
def hexChars : List Char := "0123456789abcdef".data

/-- Format of the file ids minted at upload time
(`str(uuid.uuid4())` in `main.py`): five hex segments of lengths
8, 4, 4, 4, 12 joined by hyphens. -/
def UuidFormat (s : String) : Prop :=
  ∃ a b c d e : List Char,
    s.data = a ++ '-' :: (b ++ '-' :: (c ++ '-' :: (d ++ '-' :: e))) ∧
    a.length = 8 ∧ b.length = 4 ∧ c.length = 4 ∧ d.length = 4 ∧ e.length = 12 ∧
    (∀ x ∈ a, x ∈ hexChars) ∧ (∀ x ∈ b, x ∈ hexChars) ∧ (∀ x ∈ c, x ∈ hexChars) ∧
    (∀ x ∈ d, x ∈ hexChars) ∧ (∀ x ∈ e, x ∈ hexChars)

/-- Field shapes retained by the normalizer: a mapping or a dense
sequence; anything else is silently excluded. -/
def isMappingOrSeq : PyVal → Bool
  | .pdict _ => true
  | .plist _ => true
  | _ => false

/-- A sample file id in `uuid4` format, used to instantiate theorems
on concrete inputs. -/
def uuidA : String := "12345678-1234-1234-1234-123456789abc"

/-- An environment whose model always answers directly and whose
store is empty, used to instantiate theorems on concrete inputs. -/
def idleEnv : Env where
  chat := fun _ => ⟨"", []⟩
  chatStream := fun _ => []
  basePrompt := ""
  tables := []
  describeTable := fun _ => .error "no such table"
  runSql := fun _ => .error "no database"
  modeQuery := fun _ _ => .ok none

/-- An environment whose model requests the same tool call on every
turn, used to instantiate the iteration-bound theorem. -/
def loopingEnv : Env where
  chat := fun _ => ⟨"", [⟨"call_1", "control_playback", .pdict [("action", .pstr "play")]⟩]⟩
  chatStream := fun _ => []
  basePrompt := ""
  tables := []
  describeTable := fun _ => .error "no such table"
  runSql := fun _ => .error "no database"
  modeQuery := fun _ _ => .ok none

/-- An environment whose model answers directly, streaming the answer
in three chunks (one empty), used to instantiate the streaming
theorem. -/
def answerEnv : Env where
  chat := fun _ => ⟨"Hello world", []⟩
  chatStream := fun _ => ["Hello ", "", "world"]
  basePrompt := ""
  tables := []
  describeTable := fun _ => .error "no such table"
  runSql := fun _ => .error "no database"
  modeQuery := fun _ _ => .ok none

/-- An environment whose model requests two tool calls in its first
turn, used to instantiate the transcript-pairing theorem. -/
def twoCallEnv : Env where
  chat := fun _ =>
    ⟨"", [⟨"call_a", "seek_to_timestamp", .pdict [("timestamp_ms", .pint 5)]⟩,
          ⟨"call_b", "control_playback", .pdict [("action", .pstr "pause")]⟩]⟩
  chatStream := fun _ => []
  basePrompt := ""
  tables := []
  describeTable := fun _ => .error "no such table"
  runSql := fun _ => .error "no database"
  modeQuery := fun _ _ => .ok none

/-- An environment whose heartbeat query finds every mode at
`time_boot_ms = 1234`, used to instantiate the case-insensitivity
theorem. -/
def foundModeEnv : Env where
  chat := fun _ => ⟨"", []⟩
  chatStream := fun _ => []
  basePrompt := ""
  tables := []
  describeTable := fun _ => .error "no such table"
  runSql := fun _ => .error "no database"
  modeQuery := fun _ _ => .ok (some 1234)

instance : IsTotal (Int × PyVal) (fun a b => a.1 ≤ b.1) :=
  ⟨fun a b => Int.le_total a.1 b.1⟩

instance : IsTrans (Int × PyVal) (fun a b => a.1 ≤ b.1) :=
  ⟨fun _ _ _ h1 h2 => le_trans h1 h2⟩

/-! ## Helper lemmas -/

theorem le_foldl_max (l : List (String × List PyVal)) :
    ∀ b : Nat, b ≤ l.foldl (fun m p => max m p.2.length) b := by
  induction l with
  | nil => intro b; exact le_refl b
  | cons q rest ih =>
      intro b
      exact le_trans (le_max_left b q.2.length) (ih (max b q.2.length))

theorem mem_le_foldl_max (l : List (String × List PyVal)) :
    ∀ (b : Nat) (p : String × List PyVal), p ∈ l →
      p.2.length ≤ l.foldl (fun m p => max m p.2.length) b := by
  induction l with
  | nil => intro _ _ hp; cases hp
  | cons q rest ih =>
      intro b p hp
      cases hp with
      | head =>
          exact le_trans (le_max_right b q.2.length) (le_foldl_max rest _)
      | tail _ hmem => exact ih _ p hmem

theorem maxLength_ge {data : List (String × List PyVal)}
    {p : String × List PyVal} (hp : p ∈ data) : p.2.length ≤ maxLength data :=
  mem_le_foldl_max data 0 p hp

theorem padTo_length {m : Nat} {xs : List PyVal} (h : xs.length ≤ m) :
    (padTo m xs).length = m := by
  simp only [padTo, List.length_append, List.length_replicate]
  omega

theorem padTo_self (xs : List PyVal) : padTo xs.length xs = xs := by
  simp [padTo]

theorem maxLength_single (fn : String) (vals : List PyVal) :
    maxLength [(fn, vals)] = vals.length := by
  simp [maxLength]

theorem map_pad_single (fn : String) (vals : List PyVal) :
    List.map (fun p => (p.1, padTo (maxLength [(fn, vals)]) p.2)) [(fn, vals)]
      = [(fn, vals)] := by
  simp only [List.map_cons, List.map_nil]
  rw [maxLength_single, padTo_self]

theorem normalize_pdict_eq {md : List (String × PyVal)}
    {data : List (String × List PyVal)} (hc : collectFields md = some data) :
    normalizeMessageType (.pdict md)
      = some ⟨data.map (fun p => (p.1, padTo (maxLength data) p.2))⟩ := by
  cases md with
  | nil =>
      simp only [collectFields, Option.some.injEq] at hc
      subst hc
      rfl
  | cons q rest =>
      rw [normalizeMessageType]
      have : pyTruthy (.pdict (q :: rest)) = true := by
        simp [pyTruthy]
      rw [this]
      simp only [Bool.true_eq_false, if_false, hc, Option.map_some']

theorem assoc_nodup_eq {md : List (String × PyVal)}
    (hnd : (md.map Prod.fst).Nodup) {fn : String} {v v' : PyVal}
    (h1 : (fn, v) ∈ md) (h2 : (fn, v') ∈ md) : v = v' := by
  induction md with
  | nil => cases h1
  | cons q rest ih =>
      simp only [List.map_cons, List.nodup_cons] at hnd
      cases h1 with
      | head =>
          cases h2 with
          | head => rfl
          | tail _ hm =>
              exact absurd (List.mem_map.mpr ⟨(fn, v'), hm, rfl⟩) hnd.1
      | tail _ hm1 =>
          cases h2 with
          | head =>
              exact absurd (List.mem_map.mpr ⟨(fn, v), hm1, rfl⟩) hnd.1
          | tail _ hm2 => exact ih hnd.2 hm1 hm2

theorem collectFields_retained {md : List (String × PyVal)}
    {data : List (String × List PyVal)} (hc : collectFields md = some data) :
    ∀ fn, fn ∈ data.map Prod.fst →
      ∃ v ys, (fn, v) ∈ md ∧ fieldValues v = some (some ys) := by
  induction md generalizing data with
  | nil =>
      simp only [collectFields, Option.some.injEq] at hc
      subst hc
      intro fn h
      simp at h
  | cons q rest ih =>
      obtain ⟨qn, qv⟩ := q
      intro fn hfn
      rw [collectFields] at hc
      cases hfv : fieldValues qv with
      | none => rw [hfv] at hc; cases hc
      | some o =>
          cases o with
          | none =>
              rw [hfv] at hc
              obtain ⟨v, ys, hm, hv⟩ := ih hc fn hfn
              exact ⟨v, ys, List.mem_cons_of_mem _ hm, hv⟩
          | some xs =>
              rw [hfv] at hc
              cases htail : collectFields rest with
              | none => rw [htail] at hc; cases hc
              | some tail =>
                  rw [htail] at hc
                  simp only [Option.map_some', Option.some.injEq] at hc
                  subst hc
                  simp only [List.map_cons, List.mem_cons] at hfn
                  cases hfn with
                  | inl he => exact ⟨qv, xs, by rw [he]; exact List.Mem.head _, hfv⟩
                  | inr hm =>
                      obtain ⟨v, ys, hmem, hv⟩ := ih htail fn hm
                      exact ⟨v, ys, List.mem_cons_of_mem _ hmem, hv⟩

theorem fieldValues_skipped {v : PyVal} (h : isMappingOrSeq v = false) :
    fieldValues v = some none := by
  cases v <;> first | rfl | (simp [isMappingOrSeq] at h)

/-! ## C1: the normalizer pads ragged fields to the maximum length -/

/-- C1: for every MessageBlock whose retained fields have differing
lengths, `normalize_message_type` returns a table in which every
column's length equals the maximum retained field length, the column
names are the retained field names in order, each column's original
values are preserved in order as a prefix, and all positions past a
field's original length are null. -/
theorem normalizer_pads_to_max (md : List (String × PyVal)) (t : Table)
    (data : List (String × List PyVal))
    (hc : collectFields md = some data)
    (hn : normalizeMessageType (.pdict md) = some t)
    (hragged : ∃ p ∈ data, ∃ q ∈ data, p.2.length ≠ q.2.length) :
    (∀ c ∈ t.cols, c.2.length = maxLength data) ∧
    t.cols.map Prod.fst = data.map Prod.fst ∧
    (∀ fn xs, (fn, xs) ∈ data →
      ∃ ys, (fn, ys) ∈ t.cols ∧ ys.take xs.length = xs ∧
        ys.length = maxLength data ∧
        ∀ j (hj : j < ys.length), xs.length ≤ j → ys[j] = PyVal.pnull) := by
  rw [normalize_pdict_eq hc] at hn
  have ht : t = ⟨data.map (fun p => (p.1, padTo (maxLength data) p.2))⟩ :=
    (Option.some.injEq _ _).mp hn |>.symm
  subst ht
  refine ⟨?_, ?_, ?_⟩
  · intro c hcm
    obtain ⟨p, hp, he⟩ := List.mem_map.mp hcm
    rw [← he]
    exact padTo_length (maxLength_ge hp)
  · simp
  · intro fn xs hm
    refine ⟨padTo (maxLength data) xs, List.mem_map.mpr ⟨(fn, xs), hm, rfl⟩, ?_, ?_, ?_⟩
    · exact List.take_left xs _
    · exact padTo_length (maxLength_ge hm)
    · intro j hj hge
      have hxs : xs.length ≤ j := hge
      simp only [padTo] at hj ⊢
      rw [List.getElem_append_right hxs]
      exact List.getElem_replicate _ _

/-- Closed instance of `normalizer_pads_to_max` on a concrete ragged
block. -/
theorem normalizer_pads_to_max_witness :
    (∀ c ∈ (Table.mk [("a", [PyVal.pint 1, PyVal.pint 2]), ("b", [PyVal.pint 3, PyVal.pnull])]).cols,
        c.2.length = maxLength [("a", [PyVal.pint 1, PyVal.pint 2]), ("b", [PyVal.pint 3])]) ∧
    (Table.mk [("a", [PyVal.pint 1, PyVal.pint 2]), ("b", [PyVal.pint 3, PyVal.pnull])]).cols.map Prod.fst
      = [("a", [PyVal.pint 1, PyVal.pint 2]), ("b", [PyVal.pint 3])].map Prod.fst ∧
    (∀ fn xs, (fn, xs) ∈ [("a", [PyVal.pint 1, PyVal.pint 2]), ("b", [PyVal.pint 3])] →
      ∃ ys, (fn, ys) ∈ (Table.mk [("a", [PyVal.pint 1, PyVal.pint 2]), ("b", [PyVal.pint 3, PyVal.pnull])]).cols ∧
        ys.take xs.length = xs ∧
        ys.length = maxLength [("a", [PyVal.pint 1, PyVal.pint 2]), ("b", [PyVal.pint 3])] ∧
        ∀ j (hj : j < ys.length), xs.length ≤ j → ys[j] = PyVal.pnull) :=
  normalizer_pads_to_max
    [("a", .plist [.pint 1, .pint 2]), ("b", .plist [.pint 3])]
    (Table.mk [("a", [PyVal.pint 1, PyVal.pint 2]), ("b", [PyVal.pint 3, PyVal.pnull])])
    [("a", [PyVal.pint 1, PyVal.pint 2]), ("b", [PyVal.pint 3])]
    rfl rfl
    ⟨("a", [PyVal.pint 1, PyVal.pint 2]), List.Mem.head _,
     ("b", [PyVal.pint 3]), List.Mem.tail _ (List.Mem.head _), by decide⟩

/-! ## C2: per-field handling of the normalizer -/

/-- C2: a sparse index-keyed mapping is ordered by the numeric value
of its keys; a dense list is taken as-is; any other shape is silently
excluded from the output schema; and the input
`{"0":10,"2":12,"1":11}` yields the ordered sequence `[10,11,12]`. -/
theorem normalizer_field_shapes :
    (∀ fn kvs keyed t,
        kvs.mapM (fun kv => (pyInt? kv.1).map (fun n => (n, kv.2))) = some keyed →
        normalizeMessageType (.pdict [(fn, .pdict kvs)]) = some t →
        ∃ skvs, keyed.Perm skvs ∧
          List.Sorted (fun a b : Int × PyVal => a.1 ≤ b.1) skvs ∧
          t = ⟨[(fn, skvs.map Prod.snd)]⟩) ∧
    (∀ fn xs t, normalizeMessageType (.pdict [(fn, .plist xs)]) = some t →
        t = ⟨[(fn, xs)]⟩) ∧
    (∀ md fn v t, (md.map Prod.fst).Nodup → (fn, v) ∈ md →
        isMappingOrSeq v = false → normalizeMessageType (.pdict md) = some t →
        fn ∉ t.cols.map Prod.fst) ∧
    normalizeMessageType (.pdict [("f", .pdict [("0", .pint 10), ("2", .pint 12), ("1", .pint 11)])])
      = some ⟨[("f", [.pint 10, .pint 11, .pint 12])]⟩ := by
  refine ⟨?_, ?_, ?_, ?_⟩
  · intro fn kvs keyed t hk hn
    have hsv : sortedDictValues kvs
        = some ((List.insertionSort (fun a b => a.1 ≤ b.1) keyed).map Prod.snd) := by
      rw [sortedDictValues, hk]
      rfl
    have hcf : collectFields [(fn, .pdict kvs)]
        = some [(fn, (List.insertionSort (fun a b => a.1 ≤ b.1) keyed).map Prod.snd)] := by
      rw [collectFields]
      simp only [fieldValues, hsv]
      rfl
    rw [normalize_pdict_eq hcf] at hn
    refine ⟨List.insertionSort (fun a b => a.1 ≤ b.1) keyed,
      (List.perm_insertionSort _ _).symm, List.sorted_insertionSort _ _, ?_⟩
    have := (Option.some.injEq _ _).mp hn
    rw [← this]
    exact congrArg Table.mk (map_pad_single fn _)
  · intro fn xs t hn
    have hcf : collectFields [(fn, .plist xs)] = some [(fn, xs)] := by
      rw [collectFields]
      rfl
    rw [normalize_pdict_eq hcf] at hn
    have := (Option.some.injEq _ _).mp hn
    rw [← this]
    exact congrArg Table.mk (map_pad_single fn _)
  · intro md fn v t hnd hm hshape hn
    intro hcontra
    cases hcf : collectFields md with
    | none =>
        rw [normalizeMessageType] at hn
        have htr : pyTruthy (.pdict md) = true := by
          cases md with
          | nil => cases hm
          | cons q rest => simp [pyTruthy]
        rw [htr] at hn
        simp only [Bool.true_eq_false, if_false, hcf] at hn
        cases hn
    | some data =>
        rw [normalize_pdict_eq hcf] at hn
        have ht : t = ⟨data.map (fun p => (p.1, padTo (maxLength data) p.2))⟩ :=
          ((Option.some.injEq _ _).mp hn).symm
        subst ht
        simp only [List.map_map] at hcontra
        have hfn : fn ∈ data.map Prod.fst := by
          simpa using hcontra
        obtain ⟨v', ys, hm', hv'⟩ := collectFields_retained hcf fn hfn
        have : v' = v := assoc_nodup_eq hnd hm' hm
        rw [this, fieldValues_skipped hshape] at hv'
        cases hv'
  · rfl

/-- Closed instance of `normalizer_field_shapes` on concrete sparse,
dense and scalar fields. -/
theorem normalizer_field_shapes_witness :
    (∃ skvs, List.Perm [((1 : Int), PyVal.pint 7)] skvs ∧
       List.Sorted (fun a b : Int × PyVal => a.1 ≤ b.1) skvs ∧
       (Table.mk [("f", [PyVal.pint 7])]) = ⟨[("f", skvs.map Prod.snd)]⟩) ∧
    (Table.mk [("g", [PyVal.pint 3])]) = ⟨[("g", [PyVal.pint 3])]⟩ ∧
    "h" ∉ (Table.mk []).cols.map Prod.fst :=
  ⟨normalizer_field_shapes.1 "f" [("1", .pint 7)] [((1 : Int), PyVal.pint 7)]
      (Table.mk [("f", [PyVal.pint 7])]) rfl rfl,
   normalizer_field_shapes.2.1 "g" [.pint 3] (Table.mk [("g", [PyVal.pint 3])]) rfl,
   normalizer_field_shapes.2.2.1 [("h", .pint 9)] "h" (.pint 9) (Table.mk [])
      (by simp) (List.Mem.head _) rfl rfl⟩

/-! ## C4: the SQL tool never raises and returns envelopes -/

/-- C4: for every SQL string, `query_sql` returns a structured success
envelope when the store succeeds and a structured failure envelope
carrying the error and the original SQL when the store fails; as a
total function of the store outcome, no exception crosses the
boundary. -/
theorem query_sql_envelope (env : Env) (sql : String) :
    (∃ data cols, env.runSql sql = .ok (data, cols) ∧
       querySql sql env
         = .pdict [("success", .pbool true),
                   ("data", .plist (data.map .plist)),
                   ("columns", .plist (cols.map .pstr)),
                   ("row_count", .pint (data.length : Int))]) ∨
    (∃ e, env.runSql sql = .error e ∧
       querySql sql env
         = .pdict [("success", .pbool false),
                   ("data", .pnull),
                   ("columns", .pnull),
                   ("row_count", .pint 0),
                   ("error", .pstr e),
                   ("sql", .pstr sql)]) := by
  cases h : env.runSql sql with
  | ok rc =>
      obtain ⟨data, cols⟩ := rc
      exact Or.inl ⟨data, cols, rfl, by simp [querySql, h]⟩
  | error e =>
      exact Or.inr ⟨e, rfl, by simp [querySql, h]⟩

/-! ## C6: timestamp validation of `seek_to_timestamp` -/

/-- C6: every negative timestamp yields a structured error and no
command envelope; every non-negative timestamp yields the command
envelope carrying that timestamp. -/
theorem seek_to_timestamp_valid (t : Int) :
    (t < 0 → seekToTimestamp t = .pdict [("error", .pstr "Timestamp cannot be negative")] ∧
       isCommandResult (seekToTimestamp t) = false) ∧
    (0 ≤ t → seekToTimestamp t
       = .pdict [("type", .pstr "command"),
                 ("action", .pstr "seek_to_timestamp"),
                 ("params", .pdict [("timestamp", .pint t)])]) := by
  constructor
  · intro h
    rw [seekToTimestamp, if_pos h]
    exact ⟨rfl, rfl⟩
  · intro h
    rw [seekToTimestamp, if_neg (by omega)]

/-! ## C3: ingestion creates one table per non-empty message type -/

theorem processMessages_filterMap (fileId : String) :
    ∀ (mkvs : List (String × PyVal)) (existing : List String)
      (created : List (String × Table)),
      processMessages fileId existing mkvs = some created →
      created = mkvs.filterMap (createdEntry fileId) := by
  intro mkvs
  induction mkvs with
  | nil =>
      intro existing created h
      rw [processMessages] at h
      injection h with h
      rw [← h]
      rfl
  | cons q rest ih =>
      obtain ⟨mt, md⟩ := q
      intro existing created h
      rw [processMessages] at h
      by_cases hf : mt = "FILE"
      · rw [if_pos hf] at h
        have hce : createdEntry fileId (mt, md) = none := by
          simp [createdEntry, hf]
        rw [List.filterMap_cons, hce]
        exact ih existing created h
      · rw [if_neg hf] at h
        cases hnm : normalizeMessageType md with
        | none => simp [hnm] at h
        | some df =>
            simp only [hnm] at h
            by_cases he : tableIsEmpty df = true
            · rw [if_pos he] at h
              have hce : createdEntry fileId (mt, md) = none := by
                simp [createdEntry, hf, hnm, he]
              rw [List.filterMap_cons, hce]
              exact ih existing created h
            · rw [if_neg he] at h
              by_cases hex : cleanTableName fileId mt ∈ existing
              · rw [if_pos hex] at h; cases h
              · rw [if_neg hex] at h
                cases ht : processMessages fileId (cleanTableName fileId mt :: existing) rest with
                | none => rw [ht] at h; cases h
                | some tail =>
                    rw [ht] at h
                    injection h with h
                    have hce : createdEntry fileId (mt, md)
                        = some (cleanTableName fileId mt, coerceTable df) := by
                      simp [createdEntry, hf, hnm, he]
                    rw [List.filterMap_cons, hce, ← h, ih _ tail ht]

theorem processMessages_fresh (fileId : String) :
    ∀ (mkvs : List (String × PyVal)) (existing : List String)
      (created : List (String × Table)),
      processMessages fileId existing mkvs = some created →
      (created.map Prod.fst).Nodup ∧ ∀ n ∈ created.map Prod.fst, n ∉ existing := by
  intro mkvs
  induction mkvs with
  | nil =>
      intro existing created h
      rw [processMessages] at h
      injection h with h
      rw [← h]
      exact ⟨List.nodup_nil, by intro n hn; cases hn⟩
  | cons q rest ih =>
      obtain ⟨mt, md⟩ := q
      intro existing created h
      rw [processMessages] at h
      by_cases hf : mt = "FILE"
      · rw [if_pos hf] at h
        exact ih existing created h
      · rw [if_neg hf] at h
        cases hnm : normalizeMessageType md with
        | none => simp [hnm] at h
        | some df =>
            simp only [hnm] at h
            by_cases he : tableIsEmpty df = true
            · rw [if_pos he] at h
              exact ih existing created h
            · rw [if_neg he] at h
              by_cases hex : cleanTableName fileId mt ∈ existing
              · rw [if_pos hex] at h; cases h
              · rw [if_neg hex] at h
                cases ht : processMessages fileId (cleanTableName fileId mt :: existing) rest with
                | none => rw [ht] at h; cases h
                | some tail =>
                    rw [ht] at h
                    injection h with h
                    obtain ⟨hnd, hdisj⟩ := ih _ tail ht
                    rw [← h]
                    constructor
                    · rw [List.map_cons]
                      refine List.Nodup.cons ?_ hnd
                      intro hmem
                      have := hdisj _ hmem
                      exact this (List.Mem.head _)
                    · intro n hn
                      rw [List.map_cons] at hn
                      cases hn with
                      | head => exact hex
                      | tail _ hm =>
                          intro hcontra
                          exact hdisj _ hm (List.Mem.tail _ hcontra)

/-- C3: for every raw telemetry input and file id, successful
ingestion creates, in message order, exactly one store table per
non-empty message type other than the reserved `"FILE"` type, named
`log_{file_id}_{msg_type}` with brackets and hyphens replaced by
underscores; empty blocks and the reserved type contribute no table,
and each created table name occurs exactly once. -/
theorem ingest_creates_one_table_per_type
    (rawData : PyVal) (fileId : String) (existing : List String)
    (created : List (String × Table))
    (rkvs mkvs : List (String × PyVal))
    (hraw : rawData = .pdict rkvs)
    (hmsgs : lookupKey rkvs "messages" = some (.pdict mkvs))
    (h : ingestAndNormalize rawData fileId existing = some created) :
    created = mkvs.filterMap (createdEntry fileId) ∧
    (created.map Prod.fst).Nodup ∧
    (∀ mt md df, (mt, md) ∈ mkvs → mt ≠ "FILE" →
        normalizeMessageType md = some df → tableIsEmpty df = false →
        (created.map Prod.fst).count (cleanTableName fileId mt) = 1) := by
  subst hraw
  rw [ingestAndNormalize, hmsgs] at h
  simp only [Option.getD_some] at h
  have h1 := processMessages_filterMap fileId mkvs existing created h
  have h2 := (processMessages_fresh fileId mkvs existing created h).1
  refine ⟨h1, h2, ?_⟩
  intro mt md df hmem hne hnorm hempty
  have hentry : createdEntry fileId (mt, md) = some (cleanTableName fileId mt, coerceTable df) := by
    simp [createdEntry, hne, hnorm, hempty]
  have hmemc : cleanTableName fileId mt ∈ created.map Prod.fst := by
    rw [h1]
    exact List.mem_map.mpr
      ⟨(cleanTableName fileId mt, coerceTable df),
       List.mem_filterMap.mpr ⟨(mt, md), hmem, hentry⟩, rfl⟩
  have hle := List.nodup_iff_count_le_one.mp h2 (cleanTableName fileId mt)
  have hpos := List.count_pos_iff.mpr hmemc
  omega

/-- Closed instance of `ingest_creates_one_table_per_type` on a
concrete upload with an attitude block, a reserved metadata block and
the file id `abc-123`. -/
theorem ingest_creates_one_table_per_type_witness :
    [("log_abc_123_ATT", Table.mk [("Roll", [PyVal.pint 1])])]
      = [("ATT", PyVal.pdict [("Roll", PyVal.plist [PyVal.pint 1])]),
         ("FILE", PyVal.pdict [("x", PyVal.pint 0)])].filterMap (createdEntry "abc-123") ∧
    (([("log_abc_123_ATT", Table.mk [("Roll", [PyVal.pint 1])])].map Prod.fst).Nodup) ∧
    ([("log_abc_123_ATT", Table.mk [("Roll", [PyVal.pint 1])])].map Prod.fst).count
        (cleanTableName "abc-123" "ATT") = 1 := by
  have h := ingest_creates_one_table_per_type
    (.pdict [("messages", .pdict [("ATT", .pdict [("Roll", .plist [.pint 1])]),
                                  ("FILE", .pdict [("x", .pint 0)])])])
    "abc-123" []
    [("log_abc_123_ATT", Table.mk [("Roll", [PyVal.pint 1])])]
    [("messages", .pdict [("ATT", .pdict [("Roll", .plist [.pint 1])]),
                          ("FILE", .pdict [("x", .pint 0)])])]
    [("ATT", .pdict [("Roll", .plist [.pint 1])]), ("FILE", .pdict [("x", .pint 0)])]
    rfl rfl rfl
  exact ⟨h.1, h.2.1, h.2.2 "ATT" (.pdict [("Roll", .plist [.pint 1])])
    (Table.mk [("Roll", [PyVal.pint 1])]) (List.Mem.head _) (by decide) rfl rfl⟩

/-- Closed instance of `seek_to_timestamp_valid` at `-1` and `45000`. -/
theorem seek_to_timestamp_valid_witness :
    (seekToTimestamp (-1) = .pdict [("error", .pstr "Timestamp cannot be negative")] ∧
       isCommandResult (seekToTimestamp (-1)) = false) ∧
    seekToTimestamp 45000
      = .pdict [("type", .pstr "command"),
                ("action", .pstr "seek_to_timestamp"),
                ("params", .pdict [("timestamp", .pint 45000)])] :=
  ⟨(seek_to_timestamp_valid (-1)).1 (by omega),
   (seek_to_timestamp_valid 45000).2 (by omega)⟩

/-! ## Agent loop lemmas -/

theorem agentIter_succ_no_tools {env : Env} {fid : String} {mi : Nat}
    {messages : List Message} {fuel : Nat}
    (h : (env.chat messages).toolCalls = []) :
    agentIter env fid mi messages (fuel + 1)
      = some ⟨((env.chatStream messages).filter (fun c => !(c == ""))).map Event.token
                ++ [Event.done],
              messages, 2⟩ := by
  rw [agentIter]
  simp [h]

theorem agentIter_succ_tools {env : Env} {fid : String} {mi : Nat}
    {messages : List Message} {fuel : Nat}
    (h : (env.chat messages).toolCalls ≠ []) :
    agentIter env fid mi messages (fuel + 1)
      = match foldToolCalls env fid (env.chat messages).toolCalls with
        | none => none
        | some (evs, toolMsgs) =>
            match agentIter env fid mi
                (messages ++ Message.assistant (env.chat messages) :: toolMsgs) fuel with
            | none => none
            | some r => some ⟨evs ++ r.events, r.finalMessages, r.modelCalls + 1⟩ := by
  rw [agentIter]
  have hie : (env.chat messages).toolCalls.isEmpty = false := by
    cases hc : (env.chat messages).toolCalls with
    | nil => exact absurd hc h
    | cons a l => rfl
  simp only [hie, Bool.false_eq_true, if_false]

theorem foldl_append_filter (l : List String) :
    ∀ a : String,
      ((l.filter (fun c => !(c == ""))).foldl (fun x y => x ++ y) a)
        = l.foldl (fun x y => x ++ y) a := by
  induction l with
  | nil => intro a; rfl
  | cons c rest ih =>
      intro a
      by_cases hc : c = ""
      · subst hc
        have h1 : List.filter (fun c => !(c == "")) ("" :: rest)
            = List.filter (fun c => !(c == "")) rest := by
          simp [List.filter_cons]
        rw [h1, List.foldl_cons]
        have h2 : a ++ "" = a := by simp
        rw [h2]
        exact ih a
      · have h1 : List.filter (fun c => !(c == "")) (c :: rest)
            = c :: List.filter (fun c => !(c == "")) rest := by
          simp [List.filter_cons, hc]
        rw [h1, List.foldl_cons, List.foldl_cons]
        exact ih (a ++ c)

theorem concatChunks_filter (l : List String) :
    concatChunks (l.filter (fun c => !(c == ""))) = concatChunks l :=
  foldl_append_filter l ""

/-! ## C7: direct answers stream as tokens followed by done -/

/-- C7: for a question the model answers without requesting any tool
call, the emitted event sequence is a non-empty run of token events
followed by exactly one done event, and concatenating the token
contents reproduces the full streamed answer text. -/
theorem agent_streams_answer (env : Env) (q fid : String) (hist : List Message)
    (n : Nat) (run : AgentRun)
    (h : runAgent env q fid hist (n + 1) = some run)
    (hnt : (env.chat (initialTranscript env q fid hist)).toolCalls = [])
    (hne : ∃ c ∈ env.chatStream (initialTranscript env q fid hist), c ≠ "") :
    ∃ toks, toks ≠ [] ∧
      run.events = toks.map Event.token ++ [Event.done] ∧
      concatChunks toks
        = concatChunks (env.chatStream (initialTranscript env q fid hist)) := by
  rw [runAgent, agentIter_succ_no_tools hnt] at h
  injection h with h
  refine ⟨(env.chatStream (initialTranscript env q fid hist)).filter (fun c => !(c == "")),
    ?_, ?_, ?_⟩
  · obtain ⟨c, hc, hcne⟩ := hne
    intro hnil
    have hmem : c ∈ (env.chatStream (initialTranscript env q fid hist)).filter
        (fun c => !(c == "")) :=
      List.mem_filter.mpr ⟨hc, by simpa using hcne⟩
    rw [hnil] at hmem
    cases hmem
  · rw [← h]
  · exact concatChunks_filter _

/-- Closed instance of `agent_streams_answer` on an environment that
answers `"Hello world"` in three chunks. -/
theorem agent_streams_answer_witness :
    ∃ toks, toks ≠ [] ∧
      (AgentRun.mk
        [Event.token "Hello ", Event.token "world", Event.done]
        (initialTranscript answerEnv "hi" "" []) 2).events
        = toks.map Event.token ++ [Event.done] ∧
      concatChunks toks
        = concatChunks (answerEnv.chatStream (initialTranscript answerEnv "hi" "" [])) :=
  agent_streams_answer answerEnv "hi" "" [] 9
    (AgentRun.mk [Event.token "Hello ", Event.token "world", Event.done]
      (initialTranscript answerEnv "hi" "" []) 2)
    rfl rfl ⟨"Hello ", List.Mem.head _, by decide⟩

/-! ## C8: the iteration bound terminates the loop -/

theorem foldToolCalls_commands (env : Env) (fid : String) :
    ∀ (tcs : List ToolCall) (evs : List Event) (msgs : List Message),
      foldToolCalls env fid tcs = some (evs, msgs) →
      ∀ e ∈ evs, ∃ r, e = Event.commandEv r := by
  intro tcs
  induction tcs with
  | nil =>
      intro evs msgs h
      rw [foldToolCalls] at h
      injection h with h
      have h1 : ([] : List Event) = evs := congrArg Prod.fst h
      intro e he
      rw [← h1] at he
      cases he
  | cons tc rest ih =>
      intro evs msgs h
      rw [foldToolCalls] at h
      cases hex : executeTool tc fid env with
      | none => simp [hex] at h
      | some r =>
          simp only [hex] at h
          cases hfr : foldToolCalls env fid rest with
          | none => simp [hfr] at h
          | some pr =>
              obtain ⟨evs', msgs'⟩ := pr
              simp only [hfr] at h
              injection h with h
              have hevs : evs = (if isCommandResult r then [Event.commandEv r] else []) ++ evs' :=
                (congrArg Prod.fst h).symm
              intro e he
              rw [hevs] at he
              rcases List.mem_append.mp he with h' | h'
              · by_cases hcr : isCommandResult r = true
                · rw [if_pos hcr] at h'
                  cases h' with
                  | head => exact ⟨r, rfl⟩
                  | tail _ hm => cases hm
                · rw [if_neg hcr] at h'
                  cases h'
              · exact ih evs' msgs' hfr e h'

theorem agent_exhaust_aux (env : Env) (fid : String) (mi : Nat)
    (h1 : ∀ msgs, (env.chat msgs).toolCalls ≠ []) :
    ∀ (fuel : Nat) (msgs : List Message) (run : AgentRun),
      agentIter env fid mi msgs fuel = some run →
      ∃ cmds, run.events = cmds ++ [Event.token (maxIterMessage mi), Event.done] ∧
        (∀ e ∈ cmds, ∃ r, e = Event.commandEv r) ∧
        run.modelCalls = fuel := by
  intro fuel
  induction fuel with
  | zero =>
      intro msgs run h
      rw [agentIter] at h
      injection h with h
      refine ⟨[], ?_, ?_, ?_⟩
      · rw [← h]; rfl
      · intro e he; cases he
      · rw [← h]
  | succ n ih =>
      intro msgs run h
      rw [agentIter_succ_tools (h1 msgs)] at h
      cases hft : foldToolCalls env fid (env.chat msgs).toolCalls with
      | none => simp [hft] at h
      | some pr =>
          obtain ⟨evs, toolMsgs⟩ := pr
          simp only [hft] at h
          cases hrec : agentIter env fid mi
              (msgs ++ Message.assistant (env.chat msgs) :: toolMsgs) n with
          | none => simp [hrec] at h
          | some r =>
              simp only [hrec] at h
              injection h with h
              obtain ⟨cmds, hev, hall, hcalls⟩ := ih _ r hrec
              refine ⟨evs ++ cmds, ?_, ?_, ?_⟩
              · rw [← h]
                show evs ++ r.events = _
                rw [hev, List.append_assoc]
              · intro e he
                rcases List.mem_append.mp he with h' | h'
                · exact foldToolCalls_commands env fid _ evs toolMsgs hft e h'
                · exact hall e h'
              · rw [← h]
                show r.modelCalls + 1 = n + 1
                omega

/-- C8: if every model response within the iteration bound carries
tool calls, the loop emits its command events, then exactly one
explanatory token event followed by one done event, terminates, and
makes exactly `max_iterations` model calls — none afterwards. -/
theorem agent_iteration_bound (env : Env) (q fid : String) (hist : List Message)
    (maxIterations : Nat) (run : AgentRun)
    (h1 : ∀ msgs, (env.chat msgs).toolCalls ≠ [])
    (h : runAgent env q fid hist maxIterations = some run) :
    ∃ cmds, run.events = cmds ++ [Event.token (maxIterMessage maxIterations), Event.done] ∧
      (∀ e ∈ cmds, ∃ r, e = Event.commandEv r) ∧
      run.modelCalls = maxIterations :=
  agent_exhaust_aux env fid maxIterations h1 maxIterations _ run h

/-- Closed instance of `agent_iteration_bound` on an environment that
requests the same playback command on every turn, with bound 1. -/
theorem agent_iteration_bound_witness :
    ∃ cmds,
      (AgentRun.mk
        [Event.commandEv (controlPlayback "play"),
         Event.token (maxIterMessage 1), Event.done]
        (initialTranscript loopingEnv "q" "f" []
          ++ Message.assistant ⟨"", [⟨"call_1", "control_playback", .pdict [("action", .pstr "play")]⟩]⟩
            :: [Message.tool "call_1" "control_playback" (pyToJson (controlPlayback "play"))])
        1).events
        = cmds ++ [Event.token (maxIterMessage 1), Event.done] ∧
      (∀ e ∈ cmds, ∃ r, e = Event.commandEv r) ∧
      (AgentRun.mk
        [Event.commandEv (controlPlayback "play"),
         Event.token (maxIterMessage 1), Event.done]
        (initialTranscript loopingEnv "q" "f" []
          ++ Message.assistant ⟨"", [⟨"call_1", "control_playback", .pdict [("action", .pstr "play")]⟩]⟩
            :: [Message.tool "call_1" "control_playback" (pyToJson (controlPlayback "play"))])
        1).modelCalls = 1 :=
  agent_iteration_bound loopingEnv "q" "f" [] 1
    (AgentRun.mk
      [Event.commandEv (controlPlayback "play"),
       Event.token (maxIterMessage 1), Event.done]
      (initialTranscript loopingEnv "q" "f" []
        ++ Message.assistant ⟨"", [⟨"call_1", "control_playback", .pdict [("action", .pstr "play")]⟩]⟩
          :: [Message.tool "call_1" "control_playback" (pyToJson (controlPlayback "play"))])
      1)
    (fun _ => by simp [loopingEnv])
    rfl

/-! ## C9: tool messages pair with their calls in order -/

theorem agentIter_extends (env : Env) (fid : String) (mi : Nat) :
    ∀ (fuel : Nat) (msgs : List Message) (run : AgentRun),
      agentIter env fid mi msgs fuel = some run →
      ∃ rest, run.finalMessages = msgs ++ rest ∧
        (rest = [] ∨ ∃ resp tl, rest = Message.assistant resp :: tl) := by
  intro fuel
  induction fuel with
  | zero =>
      intro msgs run h
      rw [agentIter] at h
      injection h with h
      exact ⟨[], by rw [← h, List.append_nil], Or.inl rfl⟩
  | succ n ih =>
      intro msgs run h
      by_cases hte : (env.chat msgs).toolCalls = []
      · rw [agentIter_succ_no_tools hte] at h
        injection h with h
        exact ⟨[], by rw [← h, List.append_nil], Or.inl rfl⟩
      · rw [agentIter_succ_tools hte] at h
        cases hft : foldToolCalls env fid (env.chat msgs).toolCalls with
        | none => simp [hft] at h
        | some pr =>
            obtain ⟨evs, toolMsgs⟩ := pr
            simp only [hft] at h
            cases hrec : agentIter env fid mi
                (msgs ++ Message.assistant (env.chat msgs) :: toolMsgs) n with
            | none => simp [hrec] at h
            | some r =>
                simp only [hrec] at h
                injection h with h
                obtain ⟨rest2, hfin, _⟩ := ih _ r hrec
                refine ⟨Message.assistant (env.chat msgs) :: (toolMsgs ++ rest2), ?_,
                  Or.inr ⟨env.chat msgs, toolMsgs ++ rest2, rfl⟩⟩
                rw [← h]
                show r.finalMessages = _
                rw [hfin]
                simp [List.append_assoc]

theorem foldToolCalls_two (env : Env) (fid : String) (tc1 tc2 : ToolCall)
    (evs : List Event) (msgs : List Message)
    (h : foldToolCalls env fid [tc1, tc2] = some (evs, msgs)) :
    ∃ c1 c2, msgs = [Message.tool tc1.id tc1.name c1, Message.tool tc2.id tc2.name c2] := by
  rw [foldToolCalls] at h
  cases h1 : executeTool tc1 fid env with
  | none => simp [h1] at h
  | some r1 =>
      simp only [h1, foldToolCalls] at h
      cases h2 : executeTool tc2 fid env with
      | none => simp [h2] at h
      | some r2 =>
          simp only [h2, foldToolCalls] at h
          injection h with h
          refine ⟨pyToJson r1, pyToJson r2, ?_⟩
          exact (congrArg Prod.snd h).symm

/-- C9: when the model issues two tool calls in one turn, the
transcript gains the assistant message immediately followed by exactly
two tool messages, in call order, each id- and name-matched to its
originating call, with any further transcript growth starting at the
next assistant message. -/
theorem two_tool_calls_transcript (env : Env) (fid : String) (mi : Nat)
    (msgs : List Message) (fuel : Nat) (run : AgentRun) (tc1 tc2 : ToolCall)
    (htc : (env.chat msgs).toolCalls = [tc1, tc2])
    (h : agentIter env fid mi msgs (fuel + 1) = some run) :
    ∃ c1 c2 rest,
      run.finalMessages
        = msgs ++ Message.assistant (env.chat msgs)
            :: Message.tool tc1.id tc1.name c1
            :: Message.tool tc2.id tc2.name c2 :: rest ∧
      (rest = [] ∨ ∃ resp tl, rest = Message.assistant resp :: tl) := by
  have hne : (env.chat msgs).toolCalls ≠ [] := by rw [htc]; simp
  rw [agentIter_succ_tools hne] at h
  rw [htc] at h
  cases hft : foldToolCalls env fid [tc1, tc2] with
  | none => simp [hft] at h
  | some pr =>
      obtain ⟨evs, toolMsgs⟩ := pr
      simp only [hft] at h
      cases hrec : agentIter env fid mi
          (msgs ++ Message.assistant (env.chat msgs) :: toolMsgs) fuel with
      | none => simp [hrec] at h
      | some r =>
          simp only [hrec] at h
          injection h with h
          obtain ⟨c1, c2, hmsgs⟩ := foldToolCalls_two env fid tc1 tc2 evs toolMsgs hft
          obtain ⟨rest, hfin, hrest⟩ := agentIter_extends env fid mi fuel _ r hrec
          refine ⟨c1, c2, rest, ?_, hrest⟩
          rw [← h]
          show r.finalMessages = _
          rw [hfin, hmsgs]
          simp [List.append_assoc]

/-- Closed instance of `two_tool_calls_transcript` on an environment
whose model issues a seek and a playback call in one turn. -/
theorem two_tool_calls_transcript_witness :
    ∃ c1 c2 rest,
      (AgentRun.mk
        [Event.commandEv (seekToTimestamp 5), Event.commandEv (controlPlayback "pause"),
         Event.token (maxIterMessage 1), Event.done]
        (initialTranscript twoCallEnv "q" "f" []
          ++ Message.assistant (twoCallEnv.chat (initialTranscript twoCallEnv "q" "f" []))
            :: [Message.tool "call_a" "seek_to_timestamp" (pyToJson (seekToTimestamp 5)),
                Message.tool "call_b" "control_playback" (pyToJson (controlPlayback "pause"))])
        1).finalMessages
        = initialTranscript twoCallEnv "q" "f" []
            ++ Message.assistant (twoCallEnv.chat (initialTranscript twoCallEnv "q" "f" []))
              :: Message.tool "call_a" "seek_to_timestamp" c1
              :: Message.tool "call_b" "control_playback" c2 :: rest ∧
      (rest = [] ∨ ∃ resp tl, rest = Message.assistant resp :: tl) := by
  have h := two_tool_calls_transcript twoCallEnv "f" 1
    (initialTranscript twoCallEnv "q" "f" []) 0
    (AgentRun.mk
      [Event.commandEv (seekToTimestamp 5), Event.commandEv (controlPlayback "pause"),
       Event.token (maxIterMessage 1), Event.done]
      (initialTranscript twoCallEnv "q" "f" []
        ++ Message.assistant (twoCallEnv.chat (initialTranscript twoCallEnv "q" "f" []))
          :: [Message.tool "call_a" "seek_to_timestamp" (pyToJson (seekToTimestamp 5)),
              Message.tool "call_b" "control_playback" (pyToJson (controlPlayback "pause"))])
      1)
    ⟨"call_a", "seek_to_timestamp", .pdict [("timestamp_ms", .pint 5)]⟩
    ⟨"call_b", "control_playback", .pdict [("action", .pstr "pause")]⟩
    rfl rfl
  exact h

/-! ## C10: case handling of `seek_to_mode` -/

theorem lookupMode_upper_fixed {s : String} {n : Int}
    (h : lookupMode s = some n) : pyUpper s = s := by
  rw [lookupMode] at h
  cases hf : modeMap.find? (fun p => p.1 == s) with
  | none => rw [hf] at h; cases h
  | some p =>
      have hmem := List.mem_of_find?_eq_some hf
      have heq : p.1 = s := by
        have := List.find?_some hf
        simpa using this
      have hkeys : ∀ q ∈ modeMap, pyUpper q.1 = q.1 := by decide
      rw [← heq]
      exact hkeys p hmem

/-- C10 (amended): the mode lookup of `seek_to_mode` is
case-insensitive — the supplied name is upper-cased before consulting
the fixed enumeration — so whenever the upper-cased name is a known
mode and the heartbeat query does not report "no occurrence",
`seek_to_mode(file_id, mode_name)` equals
`seek_to_mode(file_id, upper(mode_name))`. (Exact equality fails in
the unknown-mode and mode-not-found branches, whose error text echoes
the original casing.) -/
theorem seek_to_mode_case_insensitive (env : Env) (fid m : String) (num : Int)
    (hk : lookupMode (pyUpper m) = some num)
    (hq : env.modeQuery ("log_" ++ cleanIdStr fid ++ "_HEARTBEAT") num ≠ Except.ok none) :
    seekToMode fid m env = seekToMode fid (pyUpper m) env := by
  have hfix : pyUpper (pyUpper m) = pyUpper m := lookupMode_upper_fixed hk
  simp only [seekToMode, hfix, hk]
  cases hq2 : env.modeQuery ("log_" ++ cleanIdStr fid ++ "_HEARTBEAT") num with
  | error e => rfl
  | ok o =>
      cases o with
      | none => exact absurd hq2 hq
      | some ts => rfl

/-- C10 counterexample: the claim as stated fails — for an unknown
mode the error message echoes the original casing, so
`seek_to_mode(file_id, "zzz")` differs from
`seek_to_mode(file_id, "ZZZ")`. -/
theorem seek_to_mode_case_counterexample :
    seekToMode "f" "zzz" idleEnv ≠ seekToMode "f" "ZZZ" idleEnv := by
  intro h
  have h0 := congrArg (fun v => getKey v "error") h
  have h2 : getKey (seekToMode "f" "zzz" idleEnv) "error"
      = getKey (seekToMode "f" "ZZZ" idleEnv) "error" := h0
  have g1 : getKey (seekToMode "f" "zzz" idleEnv) "error"
      = some (.pstr ("Unknown mode 'zzz'. Known modes: "
          ++ joinWith ", " (modeMap.map Prod.fst))) := rfl
  have g2 : getKey (seekToMode "f" "ZZZ" idleEnv) "error"
      = some (.pstr ("Unknown mode 'ZZZ'. Known modes: "
          ++ joinWith ", " (modeMap.map Prod.fst))) := rfl
  rw [g1, g2] at h2
  injection h2 with h3
  injection h3 with h4
  exact absurd h4 (by decide)

/-- Closed instance of `seek_to_mode_case_insensitive` at the mode
name `"loiter"` on an environment whose heartbeat query finds the
mode. -/
theorem seek_to_mode_case_insensitive_witness :
    seekToMode "f" "loiter" foundModeEnv = seekToMode "f" (pyUpper "loiter") foundModeEnv :=
  seek_to_mode_case_insensitive foundModeEnv "f" "loiter" 5 rfl (by simp [foundModeEnv])

/-! ## C5: `list-tables` is scoped to the session's file id -/

theorem hexChar_props :
    ∀ x ∈ hexChars, hyphenChar x = x ∧ sanitizeChar x = x ∧ x ≠ '_' ∧ x ≠ '%' := by
  decide

theorem map_hyphenChar_hex {l : List Char} (h : ∀ x ∈ l, x ∈ hexChars) :
    l.map hyphenChar = l := by
  induction l with
  | nil => rfl
  | cons x xs ih =>
      rw [List.map_cons, (hexChar_props x (h x (List.Mem.head _))).1,
        ih (fun y hy => h y (List.Mem.tail _ hy))]

theorem map_sanitizeChar_hex {l : List Char} (h : ∀ x ∈ l, x ∈ hexChars) :
    l.map sanitizeChar = l := by
  induction l with
  | nil => rfl
  | cons x xs ih =>
      rw [List.map_cons, (hexChar_props x (h x (List.Mem.head _))).2.1,
        ih (fun y hy => h y (List.Mem.tail _ hy))]

theorem likeFuel_fixed :
    ∀ (f : Nat) (xs t : List Char), '%' ∉ xs →
      likeFuel f (xs ++ ['%']) t = true →
      ∃ t1 t2, t = t1 ++ t2 ∧ matchOne xs t1 = true := by
  intro f
  induction f with
  | zero =>
      intro xs t _ h
      exact absurd h (by rw [likeFuel]; exact Bool.false_ne_true)
  | succ n ih =>
      intro xs t hx h
      cases xs with
      | nil => exact ⟨[], t, rfl, rfl⟩
      | cons p ps =>
          have hp : p ≠ '%' := fun he => hx (he ▸ List.Mem.head _)
          rw [List.cons_append] at h
          cases t with
          | nil =>
              simp only [likeFuel, hp, if_false] at h
              exact absurd h Bool.false_ne_true
          | cons c t' =>
              simp only [likeFuel, hp, if_false] at h
              obtain ⟨h1, h2⟩ := (Bool.and_eq_true _ _).mp h
              obtain ⟨t1, t2, ht, hm⟩ :=
                ih ps t' (fun hm => hx (List.Mem.tail _ hm)) h2
              refine ⟨c :: t1, t2, by rw [ht, List.cons_append], ?_⟩
              rw [matchOne]
              exact (Bool.and_eq_true _ _).mpr ⟨h1, hm⟩

theorem matchOne_length : ∀ ps t, matchOne ps t = true → ps.length = t.length := by
  intro ps
  induction ps with
  | nil =>
      intro t h
      rw [matchOne] at h
      rw [List.isEmpty_iff] at h
      rw [h]
  | cons p ps' ih =>
      intro t h
      cases t with
      | nil => rw [matchOne] at h; cases h
      | cons c t' =>
          rw [matchOne] at h
          obtain ⟨_, h2⟩ := (Bool.and_eq_true _ _).mp h
          simp only [List.length_cons]
          rw [ih t' h2]

theorem matchOne_cons_tail {p c : Char} {ps t : List Char}
    (h : matchOne (p :: ps) (c :: t) = true) : matchOne ps t = true := by
  rw [matchOne] at h
  exact ((Bool.and_eq_true _ _).mp h).2

theorem matchOne_segments :
    ∀ (xs ys rest rest' : List Char),
      (∀ x ∈ xs, x ∈ hexChars) → xs.length = ys.length →
      matchOne (xs ++ rest) (ys ++ rest') = true →
      xs = ys ∧ matchOne rest rest' = true := by
  intro xs
  induction xs with
  | nil =>
      intro ys rest rest' _ hl h
      cases ys with
      | nil => exact ⟨rfl, h⟩
      | cons y ys' => simp at hl
  | cons x xs' ih =>
      intro ys rest rest' hx hl h
      cases ys with
      | nil => simp at hl
      | cons y ys' =>
          simp only [List.cons_append] at h
          rw [matchOne] at h
          obtain ⟨h1, h2⟩ := (Bool.and_eq_true _ _).mp h
          have hxh := hexChar_props x (hx x (List.Mem.head _))
          have hxy : x = y := by
            rcases (Bool.or_eq_true _ _).mp h1 with h' | h'
            · exact absurd (beq_iff_eq.mp h') hxh.2.2.1
            · exact beq_iff_eq.mp h'
          obtain ⟨hrest, hm⟩ := ih ys' rest rest'
            (fun z hz => hx z (List.Mem.tail _ hz)) (by simpa using hl) h2
          exact ⟨by rw [hxy, hrest], hm⟩

theorem string_data_inj {s t : String} (h : s.data = t.data) : s = t := by
  cases s
  cases t
  exact congrArg String.mk h

/-- Core of the session-scoping argument: over `uuid4`-format file
ids, a table name created for `fid` can only match the LIKE pattern
built from session id `sid` (whose sanitized hyphens act as one-char
wildcards) when `fid = sid`. -/
theorem uuid_like_owner (sid fid mt : String)
    (hs : UuidFormat sid) (hf : UuidFormat fid)
    (hm : likeMatch ("log_" ++ cleanIdStr sid ++ "_%").data
            (cleanTableName fid mt).data = true) :
    fid = sid := by
  obtain ⟨a, b, c, d, e, hsd, ha8, hb4, hc4, hd4, he12, hax, hbx, hcx, hdx, hex5⟩ := hs
  obtain ⟨a', b', c', d', e', hfd, ha8', hb4', hc4', hd4', he12', hax', hbx', hcx', hdx', hex5'⟩ := hf
  have hpat : ("log_" ++ cleanIdStr sid ++ "_%").data
      = ('l' :: 'o' :: 'g' :: '_' ::
          (a ++ '_' :: (b ++ '_' :: (c ++ '_' :: (d ++ '_' :: (e ++ ['_'])))))) ++ ['%'] := by
    have hclean : (cleanIdStr sid).data
        = a ++ '_' :: (b ++ '_' :: (c ++ '_' :: (d ++ '_' :: e))) := by
      show sid.data.map hyphenChar = _
      rw [hsd]
      simp only [List.map_append, List.map_cons]
      rw [map_hyphenChar_hex hax, map_hyphenChar_hex hbx, map_hyphenChar_hex hcx,
        map_hyphenChar_hex hdx, map_hyphenChar_hex hex5]
      rfl
    rw [String.data_append, String.data_append, hclean]
    show ['l', 'o', 'g', '_'] ++ _ ++ ['_', '%'] = _
    simp [List.append_assoc]
  have htar : (cleanTableName fid mt).data
      = ('l' :: 'o' :: 'g' :: '_' ::
          (a' ++ '_' :: (b' ++ '_' :: (c' ++ '_' :: (d' ++ '_' :: (e' ++ ['_']))))))
        ++ mt.data.map sanitizeChar := by
    show ("log_" ++ fid ++ "_" ++ mt).data.map sanitizeChar = _
    rw [String.data_append, String.data_append, String.data_append]
    rw [hfd]
    simp only [List.map_append, List.map_cons]
    rw [map_sanitizeChar_hex hax', map_sanitizeChar_hex hbx', map_sanitizeChar_hex hcx',
      map_sanitizeChar_hex hdx', map_sanitizeChar_hex hex5']
    show (['l', 'o', 'g', '_'].map sanitizeChar)
        ++ (a' ++ sanitizeChar '-' :: (b' ++ sanitizeChar '-' :: (c' ++ sanitizeChar '-' :: (d' ++ sanitizeChar '-' :: e'))))
        ++ (['_'].map sanitizeChar) ++ _ = _
    have hlit : ['l', 'o', 'g', '_'].map sanitizeChar = ['l', 'o', 'g', '_'] := by decide
    have hdash : sanitizeChar '-' = '_' := by decide
    have hund : ['_'].map sanitizeChar = ['_'] := by decide
    rw [hlit, hdash, hund]
    simp [List.append_assoc]
  have hnp : '%' ∉ ('l' :: 'o' :: 'g' :: '_' ::
      (a ++ '_' :: (b ++ '_' :: (c ++ '_' :: (d ++ '_' :: (e ++ ['_'])))))) := by
    intro hmem
    simp only [List.mem_cons, List.mem_append, List.mem_singleton] at hmem
    rcases hmem with h | h | h | h | h | h | h | h | h | h | h | h | h | h <;>
      first
        | exact absurd h (by decide)
        | exact absurd (hax _ h) (by decide)
        | exact absurd (hbx _ h) (by decide)
        | exact absurd (hcx _ h) (by decide)
        | exact absurd (hdx _ h) (by decide)
        | exact absurd (hex5 _ h) (by decide)
  rw [likeMatch, hpat, htar] at hm
  obtain ⟨t1, t2, ht, hmo⟩ := likeFuel_fixed _ _ _ hnp hm
  have hlen1 := matchOne_length _ _ hmo
  have ht1 : t1 = 'l' :: 'o' :: 'g' :: '_' ::
      (a' ++ '_' :: (b' ++ '_' :: (c' ++ '_' :: (d' ++ '_' :: (e' ++ ['_']))))) := by
    have hleq : t1.length
        = ('l' :: 'o' :: 'g' :: '_' ::
            (a' ++ '_' :: (b' ++ '_' :: (c' ++ '_' :: (d' ++ '_' :: (e' ++ ['_'])))))).length := by
      rw [← hlen1]
      simp [List.length_append, ha8, hb4, hc4, hd4, he12, ha8', hb4', hc4', hd4', he12']
    exact (List.append_inj ht.symm hleq).1
  rw [ht1] at hmo
  have hmo1 := matchOne_cons_tail (matchOne_cons_tail (matchOne_cons_tail (matchOne_cons_tail hmo)))
  obtain ⟨hA, hmo2⟩ := matchOne_segments a a' _ _ hax (by rw [ha8, ha8']) hmo1
  have hmo3 := matchOne_cons_tail hmo2
  obtain ⟨hB, hmo4⟩ := matchOne_segments b b' _ _ hbx (by rw [hb4, hb4']) hmo3
  have hmo5 := matchOne_cons_tail hmo4
  obtain ⟨hC, hmo6⟩ := matchOne_segments c c' _ _ hcx (by rw [hc4, hc4']) hmo5
  have hmo7 := matchOne_cons_tail hmo6
  obtain ⟨hD, hmo8⟩ := matchOne_segments d d' _ _ hdx (by rw [hd4, hd4']) hmo7
  have hmo9 := matchOne_cons_tail hmo8
  obtain ⟨hE, _⟩ := matchOne_segments e e' _ _ hex5 (by rw [he12, he12']) hmo9
  apply string_data_inj
  rw [hsd, hfd, hA, hB, hC, hD, hE]

/-- C5: executing the `list_available_tables` tool ignores the
model-supplied argument payload entirely (two runs differing only in
the argument return the same result), and over the `uuid4`-format
file ids minted at upload, `list_available_tables` never returns a
table belonging to a different file id than the session's. -/
theorem list_tables_session_scoped :
    (∀ (env : Env) (fid cid : String) (args args' : PyVal),
        executeTool ⟨cid, "list_available_tables", args⟩ fid env
          = executeTool ⟨cid, "list_available_tables", args'⟩ fid env) ∧
    (∀ (tables : List String) (sid t : String), UuidFormat sid →
        t ∈ listAvailableTables sid tables →
        ∀ (fid mt : String), UuidFormat fid → t = cleanTableName fid mt →
          fid = sid) := by
  constructor
  · intro env fid cid args args'
    rfl
  · intro tables sid t hs hmem fid mt hf ht
    have hlike := (List.mem_filter.mp hmem).2
    rw [ht] at hlike
    exact uuid_like_owner sid fid mt hs hf hlike

/-- Closed instance of `list_tables_session_scoped`: the argument
payload is ignored on a concrete store, and on a store holding one
table of a concrete `uuid4` id that id is recovered as the owner. -/
theorem list_tables_session_scoped_witness :
    executeTool ⟨"c1", "list_available_tables", .pdict [("file_id", .pstr "someone-elses-id")]⟩
        "abc" idleEnv
      = executeTool ⟨"c1", "list_available_tables", .pnull⟩ "abc" idleEnv ∧
    uuidA = uuidA :=
  ⟨list_tables_session_scoped.1 idleEnv "abc" "c1"
      (.pdict [("file_id", .pstr "someone-elses-id")]) .pnull,
   list_tables_session_scoped.2 [cleanTableName uuidA "ATT"] uuidA
      (cleanTableName uuidA "ATT")
      ⟨"12345678".data, "1234".data, "1234".data, "1234".data, "123456789abc".data,
        rfl, rfl, rfl, rfl, rfl, rfl,
        by decide, by decide, by decide, by decide, by decide⟩
      (by decide)
      uuidA "ATT"
      ⟨"12345678".data, "1234".data, "1234".data, "1234".data, "123456789abc".data,
        rfl, rfl, rfl, rfl, rfl, rfl,
        by decide, by decide, by decide, by decide, by decide⟩
      rfl⟩

end UAV
